import Mathlib

/-!
Shallow embedding of `src/queue/historical.go` (package `queue`, type
`HistoricalFIFO`).

Modelling decisions:
* `EventType` is the Go bitmask (`ADD_EVENT = 1 << iota`, ...); `entry.Is`
  is the bitwise test `types & e.event != 0`.
* The stored domain object (`UniqueCopyable`) is modelled by `Obj`: a
  unique identifier (`GetUID`) plus an opaque payload.  Deep copies
  (`Copy`) are the identity on this pure value type, and Go's
  `reflect.DeepEqual` is structural equality on `Obj`.
* The Go map `items map[string]Entry` is modelled as an association list
  with unique keys (`setItem` replaces every pair holding the key, which
  on unique-key lists is exactly Go's map assignment); `queue []string`
  is a `List String`.
* `time.Now()` is an explicit `now : Nat` parameter threaded through each
  call; `time.Duration` (`lingerTTL`) is a `Nat` added to `now`.
* Each mutating operation returns the list (or option) of notifications
  that the deferred `f.carrier(...)` loop would deliver, in order.  The
  `nil` message a no-op `Delete`/`Pop` hands to the carrier is dropped,
  exactly as the non-dead carrier built by `NewFIFO` drops it.
* `Pop` blocking on the condition variable is modelled by returning
  `none` when the wait loop would suspend with an empty queue.
-/

namespace HistoricalQueue

/-- Go constant `ADD_EVENT EventType = 1 << iota`. -/
def ADD_EVENT : Nat := 1

/-- Go constant `UPDATE_EVENT`. -/
def UPDATE_EVENT : Nat := 2

/-- Go constant `DELETE_EVENT`. -/
def DELETE_EVENT : Nat := 4

/-- Go constant `POP_EVENT`. -/
def POP_EVENT : Nat := 8

/-- A `UniqueCopyable` value: a globally unique identifier (`GetUID`)
plus the rest of the domain object, abstracted as a `Nat` payload.
`Copy` is the identity here (pure values), and `reflect.DeepEqual`
is decidable equality on `Obj`. -/
structure Obj where
  uid : String
  payload : Nat
deriving DecidableEq

/-- The `entry` / `deletedEntry` records: a value, the `event` bitmask,
and — for `deletedEntry` only — an expiration timestamp. -/
structure EntryRec where
  value : Obj
  event : Nat
  expiration : Option Nat
deriving DecidableEq

/-- Go method `func (e *entry) Is(types EventType) bool`: the bitwise test `types & e.event != 0`. -/
def EntryRec.Is (e : EntryRec) (types : Nat) : Bool :=
  types &&& e.event != 0

/-- The Go map `items map[string]Entry`, as an association list. -/
abbrev Items := List (String × EntryRec)

/-- Go map read `f.items[id]`. -/
def lookupItem (m : Items) (k : String) : Option EntryRec :=
  match m with
  | [] => none
  | (k', v) :: rest => if k' = k then some v else lookupItem rest k

/-- Go map write `f.items[id] = e`: replace the pair(s) holding the key
in place, or append when absent (on unique-key lists this is exactly the
map assignment). -/
def setItem (m : Items) (k : String) (v : EntryRec) : Items :=
  if (lookupItem m k).isSome then
    m.map (fun p => if p.1 = k then (k, v) else p)
  else
    m ++ [(k, v)]

/-- Boolean membership in a list of keys (the Go set
`deleted map[string]struct{}`). -/
def memStr (k : String) : List String → Bool
  | [] => false
  | x :: rest => if x = k then true else memStr k rest

/-- The `HistoricalFIFO` state: the `items` map, the `queue` of pending keys,
the merge counter `gcc` and the tombstone `lingerTTL`. -/
structure FIFO where
  items : Items
  queue : List String
  gcc : Nat
  lingerTTL : Nat
deriving DecidableEq

/-- The state `NewFIFO` constructs (empty map, empty queue, zero counter). -/
def newFIFO (ttl : Nat) : FIFO :=
  { items := [], queue := [], gcc := 0, lingerTTL := ttl }

/-- Whether a tombstone has expired at `now`: the `gc` test
`v.Is(DELETE_EVENT)` together with `ent.expiration.Before(now)`. -/
def expiredAt (now : Nat) (e : EntryRec) : Bool :=
  e.Is DELETE_EVENT &&
    (match e.expiration with
     | some t => decide (t < now)
     | none => false)

/-- Go method `func (f *HistoricalFIFO) gc()`: collect the keys of expired
tombstones, delete them from the map, and rebuild the queue without
them. -/
def gcRun (now : Nat) (f : FIFO) : FIFO :=
  let deleted := (f.items.filter (fun p => expiredAt now p.2)).map Prod.fst
  { f with
    items := f.items.filter (fun p => !(memStr p.1 deleted)),
    queue := f.queue.filter (fun k => !(memStr k deleted)) }

/-- The branch logic of `func (f *HistoricalFIFO) merge(id, obj)`
(lines 334–359): returns the updated `items` map and the notification
list, before the gc-counter check. -/
def mergeCore (now ttl : Nat) (items : Items) (id : String) (obj : Obj) :
    Items × List EntryRec :=
  match lookupItem items id with
  | none =>
    let e : EntryRec := { value := obj, event := ADD_EVENT, expiration := none }
    (setItem items id e, [e])
  | some item =>
    if !(item.Is DELETE_EVENT) && item.value.uid != obj.uid then
      -- hidden DELETE: tombstone the old entry, store a brand-new ADD
      let e1 : EntryRec :=
        { value := item.value, event := DELETE_EVENT, expiration := some (now + ttl) }
      let e2 : EntryRec := { value := obj, event := ADD_EVENT, expiration := none }
      (setItem items id e2, [e1, e2])
    else if obj != item.value then
      let e : EntryRec := { value := obj, event := UPDATE_EVENT, expiration := none }
      (setItem items id e, [e])
    else
      (items, [])

/-- Full `merge`: the branch logic, then `f.gcc++` and, every 256th
merge, `f.gcc = 0; f.gc()`. -/
def mergeStep (now : Nat) (f : FIFO) (id : String) (obj : Obj) :
    FIFO × List EntryRec :=
  let r := mergeCore now f.lingerTTL f.items id obj
  let gcc2 := f.gcc + 1
  if gcc2 % 256 = 0 then
    (gcRun now { f with items := r.1, gcc := 0 }, r.2)
  else
    ({ f with items := r.1, gcc := gcc2 }, r.2)

/-- Go method `func (f *HistoricalFIFO) Add(id, v)`: enqueue when the key has no
entry or its entry is tagged DELETE or POP, then merge. -/
def AddOp (now : Nat) (f : FIFO) (id : String) (obj : Obj) :
    FIFO × List EntryRec :=
  let f1 :=
    match lookupItem f.items id with
    | none => { f with queue := f.queue ++ [id] }
    | some e =>
      if e.Is (DELETE_EVENT ||| POP_EVENT) then { f with queue := f.queue ++ [id] }
      else f
  mergeStep now f1 id obj

/-- Go method `Update` is the same as `Add` in this implementation. -/
def UpdateOp (now : Nat) (f : FIFO) (id : String) (obj : Obj) :
    FIFO × List EntryRec :=
  AddOp now f id obj

/-- Go method `func (f *HistoricalFIFO) Readd(id, v, t)`: silent no-op when an
entry exists whose event does not match `t`; otherwise like `Add`. -/
def ReaddOp (now : Nat) (f : FIFO) (id : String) (obj : Obj) (t : Nat) :
    FIFO × List EntryRec :=
  match lookupItem f.items id with
  | some e =>
    if !(e.Is t) then (f, [])
    else if e.Is (DELETE_EVENT ||| POP_EVENT) then
      mergeStep now { f with queue := f.queue ++ [id] } id obj
    else
      mergeStep now f id obj
  | none => mergeStep now f id obj

/-- Go method `func (f *HistoricalFIFO) Delete(id)`: tag a live entry DELETE in
place, wrap it as a tombstone expiring at `now + lingerTTL`, store it
back; the queue is untouched.  Returns the notification (`none` models
the `nil` message the carrier drops). -/
def DeleteOp (now : Nat) (f : FIFO) (id : String) : FIFO × Option EntryRec :=
  match lookupItem f.items id with
  | some item =>
    if !(item.Is DELETE_EVENT) then
      let e : EntryRec :=
        { value := item.value, event := DELETE_EVENT,
          expiration := some (now + f.lingerTTL) }
      ({ f with items := setItem f.items id e }, some e)
    else
      (f, none)
  | none => (f, none)

/-- Go method `func (f *HistoricalFIFO) Get(id)`: the stored value unless the
entry is missing or tagged DELETE or POP. -/
def GetOp (f : FIFO) (id : String) : Option Obj :=
  match lookupItem f.items id with
  | some e =>
    if !(e.Is (DELETE_EVENT ||| POP_EVENT)) then some e.value else none
  | none => none

/-- Go method `func (f *HistoricalFIFO) List()`: copies of the values of all
entries not tagged DELETE or POP. -/
def ListOp (f : FIFO) : List Obj :=
  (f.items.filter (fun p => !(p.2.Is (DELETE_EVENT ||| POP_EVENT)))).map
    (fun p => p.2.value)

/-- Go method `func (c *HistoricalFIFO) ContainedIDs()`: the keys of all entries
not tagged DELETE or POP. -/
def ContainedIDsOp (f : FIFO) : List String :=
  (f.items.filter (fun p => !(p.2.Is (DELETE_EVENT ||| POP_EVENT)))).map Prod.fst

/-- The wait loop of `Pop`: dequeue the head key; discard it and retry
when its entry is missing or tagged DELETE or POP; otherwise store a
POP-tagged entry and return (new items, remaining queue, pop
notification, returned value copy). -/
def popLoop (items : Items) : List String → Option (Items × List String × EntryRec × Obj)
  | [] => none
  | id :: rest =>
    match lookupItem items id with
    | none => popLoop items rest
    | some item =>
      if item.Is (DELETE_EVENT ||| POP_EVENT) then
        popLoop items rest
      else
        let pe : EntryRec := { value := item.value, event := POP_EVENT, expiration := none }
        some (setItem items id pe, rest, pe, item.value)

/-- Go method `func (f *HistoricalFIFO) Pop()`: `none` models blocking on the
condition variable (queue exhausted without a live entry). -/
def PopOp (f : FIFO) : Option (FIFO × EntryRec × Obj) :=
  match popLoop f.items f.queue with
  | none => none
  | some (items', rest, pe, v) =>
    some ({ f with items := items', queue := rest }, pe, v)

/-- The first loop of `Replace`: every existing entry whose key is
absent from the new state and not already DELETE-tagged is tombstoned
in place (expiring at `now + ttl`) and queued as a notification. -/
def tombstonePass (now ttl : Nat) (newKeys : List String) :
    Items → Items × List EntryRec
  | [] => ([], [])
  | (id, v) :: rest =>
    let r := tombstonePass now ttl newKeys rest
    if !(memStr id newKeys) && !(v.Is DELETE_EVENT) then
      let e : EntryRec :=
        { value := v.value, event := DELETE_EVENT, expiration := some (now + ttl) }
      ((id, e) :: r.1, e :: r.2)
    else
      ((id, v) :: r.1, r.2)

/-- The second loop of `Replace`: enqueue each key of the new state and
merge its value, accumulating notifications in order. -/
def replacePass (now : Nat) : FIFO → List (String × Obj) → FIFO × List EntryRec
  | f, [] => (f, [])
  | f, (id, obj) :: rest =>
    let r := mergeStep now { f with queue := f.queue ++ [id] } id obj
    let r2 := replacePass now r.1 rest
    (r2.1, r.2 ++ r2.2)

/-- Go method `func (f *HistoricalFIFO) Replace(idToObj)`: reset the queue, run
the tombstone pass over the existing items, then enqueue-and-merge every
key of the new state. -/
def ReplaceOp (now : Nat) (f : FIFO) (newState : List (String × Obj)) :
    FIFO × List EntryRec :=
  let t := tombstonePass now f.lingerTTL (newState.map Prod.fst) f.items
  let r := replacePass now { f with items := t.1, queue := [] } newState
  (r.1, t.2 ++ r.2)

/-- Occurrence count of a key in the pending queue. -/
def countStr (k : String) : List String → Nat
  | [] => 0
  | x :: rest => (if x = k then 1 else 0) + countStr k rest

/-! ### Concrete states used by counterexamples and witnesses -/

/-- A value with identifier `u1`. -/
def objU1 : Obj := ⟨"u1", 1⟩

/-- A different value with the same identifier `u1`. -/
def objU2 : Obj := ⟨"u1", 2⟩

/-- A value with a different identifier `u2`. -/
def objW2 : Obj := ⟨"u2", 2⟩

/-- The state reached by `Add K u1; Delete K; Add K u1'` from a fresh
FIFO: the tombstone left `K` in the queue, and the revival enqueued `K`
a second time while making its entry live again. -/
def cxState : FIFO :=
  (AddOp 0 (DeleteOp 0 (AddOp 0 (newFIFO 300) "K" objU1).1 "K").1 "K" objU2).1

/-- A FIFO holding one live (ADD-tagged) entry for `K`, pending. -/
def wLive : FIFO := ⟨[("K", ⟨objU1, ADD_EVENT, none⟩)], ["K"], 0, 300⟩

/-- A FIFO holding one DELETE-tagged tombstone for `K`. -/
def wTomb : FIFO := ⟨[("K", ⟨objU1, DELETE_EVENT, some 500⟩)], [], 0, 300⟩

/-- A FIFO holding one POP-tagged entry for `K`. -/
def wPop : FIFO := ⟨[("K", ⟨objU1, POP_EVENT, none⟩)], [], 0, 300⟩

/-- A FIFO with an expired tombstone at `D`, a live entry at `K`, and a
merge counter one short of the GC trigger. -/
def wGC : FIFO :=
  ⟨[("D", ⟨⟨"uD", 1⟩, DELETE_EVENT, some 3⟩), ("K", ⟨⟨"uK", 1⟩, ADD_EVENT, none⟩)],
   ["D", "K"], 255, 300⟩

/-- Existing state `{A: uA/1, B: uB/2}` for the Replace scenario. -/
def rState : FIFO :=
  ⟨[("A", ⟨⟨"uA", 1⟩, ADD_EVENT, none⟩), ("B", ⟨⟨"uB", 2⟩, ADD_EVENT, none⟩)],
   ["A", "B"], 2, 300⟩

/-- Replacement state `{B: uB/3, C: uC/4}`. -/
def rNew : List (String × Obj) := [("B", ⟨"uB", 3⟩), ("C", ⟨"uC", 4⟩)]

/-! ### Association-list and bitmask lemmas -/

theorem lookupItem_map_replace_self (m : Items) (k : String) (v : EntryRec)
    (h : (lookupItem m k).isSome = true) :
    lookupItem (m.map (fun p => if p.1 = k then (k, v) else p)) k = some v := by
  induction m with
  | nil => simp [lookupItem] at h
  | cons hd tl ih =>
    obtain ⟨k', v'⟩ := hd
    rw [List.map_cons]
    by_cases hk : k' = k
    · subst hk
      simp only [if_pos]
      simp [lookupItem]
    · simp only [lookupItem, if_neg hk] at h
      simp only [if_neg hk]
      simpa [lookupItem, hk] using ih h

theorem lookupItem_append_single_self (m : Items) (k : String) (v : EntryRec)
    (h : lookupItem m k = none) :
    lookupItem (m ++ [(k, v)]) k = some v := by
  induction m with
  | nil => simp [lookupItem]
  | cons hd tl ih =>
    obtain ⟨k', v'⟩ := hd
    by_cases hk : k' = k
    · simp [lookupItem, hk] at h
    · simp only [lookupItem, if_neg hk] at h ⊢
      exact ih h

theorem lookupItem_setItem_self (m : Items) (k : String) (v : EntryRec) :
    lookupItem (setItem m k v) k = some v := by
  unfold setItem
  by_cases h : (lookupItem m k).isSome = true
  · rw [if_pos h]
    exact lookupItem_map_replace_self m k v h
  · rw [if_neg h]
    exact lookupItem_append_single_self m k v (by
      cases hl : lookupItem m k with
      | none => rfl
      | some _ => rw [hl] at h; simp at h)

theorem lookupItem_setItem_ne (m : Items) (k : String) (v : EntryRec)
    (k' : String) (h : k' ≠ k) :
    lookupItem (setItem m k v) k' = lookupItem m k' := by
  unfold setItem
  by_cases hs : (lookupItem m k).isSome = true
  · rw [if_pos hs]
    clear hs
    induction m with
    | nil => rfl
    | cons hd tl ih =>
      obtain ⟨k₁, v₁⟩ := hd
      rw [List.map_cons]
      by_cases hk : k₁ = k
      · subst hk
        simp only [if_pos]
        simpa [lookupItem, Ne.symm h] using ih
      · simp only [if_neg hk]
        by_cases hk' : k₁ = k'
        · subst hk'
          simp [lookupItem]
        · simpa [lookupItem, hk'] using ih
  · rw [if_neg hs]
    clear hs
    induction m with
    | nil => simp [lookupItem, Ne.symm h]
    | cons hd tl ih =>
      obtain ⟨k₁, v₁⟩ := hd
      by_cases hk' : k₁ = k'
      · subst hk'
        simp [lookupItem]
      · simpa [lookupItem, hk'] using ih

theorem lookupItem_mem {m : Items} {k : String} {v : EntryRec}
    (h : lookupItem m k = some v) : (k, v) ∈ m := by
  induction m with
  | nil => simp [lookupItem] at h
  | cons hd tl ih =>
    obtain ⟨k', v'⟩ := hd
    by_cases hk : k' = k
    · subst hk
      simp [lookupItem] at h
      subst h
      exact List.mem_cons_self _ _
    · simp only [lookupItem, if_neg hk] at h
      exact List.mem_cons_of_mem _ (ih h)

theorem lookup_of_mem_nodup {m : Items} {k : String} {v : EntryRec}
    (hnd : (m.map Prod.fst).Nodup) (hm : (k, v) ∈ m) :
    lookupItem m k = some v := by
  induction m with
  | nil => simp at hm
  | cons hd tl ih =>
    obtain ⟨k', v'⟩ := hd
    simp only [List.map_cons, List.nodup_cons] at hnd
    rcases List.mem_cons.mp hm with heq | htl
    · rw [← heq]
      simp [lookupItem]
    · have hk : k' ≠ k := by
        intro he
        exact hnd.1 (he ▸ List.mem_map_of_mem Prod.fst htl)
      simp only [lookupItem, if_neg hk]
      exact ih hnd.2 htl

theorem mem_map_replace_eq {m : Items} {k : String} {v v' : EntryRec}
    (hm : (k, v) ∈ m.map (fun p => if p.1 = k then (k, v') else p)) :
    v = v' := by
  induction m with
  | nil => simp at hm
  | cons hd tl ih =>
    obtain ⟨k₁, v₁⟩ := hd
    by_cases hk : k₁ = k
    · simp only [List.map_cons, if_pos hk] at hm
      rcases List.mem_cons.mp hm with heq | htl
      · exact (Prod.mk.injEq .. ▸ heq).2
      · exact ih htl
    · simp only [List.map_cons, if_neg hk] at hm
      rcases List.mem_cons.mp hm with heq | htl
      · exact absurd (congrArg Prod.fst heq).symm hk
      · exact ih htl

theorem mem_setItem_eq {m : Items} {k : String} {v v' : EntryRec}
    (hs : (lookupItem m k).isSome = true)
    (hm : (k, v) ∈ setItem m k v') : v = v' := by
  unfold setItem at hm
  rw [if_pos hs] at hm
  exact mem_map_replace_eq hm

theorem memStr_keys_filter (m : Items) (k : String) (pr : String × EntryRec → Bool) :
    memStr k ((m.filter pr).map Prod.fst) = true ↔
      ∃ v, (k, v) ∈ m ∧ pr (k, v) = true := by
  induction m with
  | nil => simp [memStr]
  | cons hd tl ih =>
    obtain ⟨k₁, v₁⟩ := hd
    by_cases hp : pr (k₁, v₁) = true
    · rw [List.filter_cons_of_pos hp]
      by_cases hk : k₁ = k
      · subst hk
        refine iff_of_true (by simp [memStr]) ⟨v₁, List.mem_cons_self _ _, hp⟩
      · simp only [List.map_cons, memStr, if_neg hk]
        rw [ih]
        constructor
        · rintro ⟨v, hv, hpr⟩
          exact ⟨v, List.mem_cons_of_mem _ hv, hpr⟩
        · rintro ⟨v, hv, hpr⟩
          rcases List.mem_cons.mp hv with heq | htl
          · exact absurd (congrArg Prod.fst heq).symm hk
          · exact ⟨v, htl, hpr⟩
    · rw [List.filter_cons_of_neg hp]
      rw [ih]
      constructor
      · rintro ⟨v, hv, hpr⟩
        exact ⟨v, List.mem_cons_of_mem _ hv, hpr⟩
      · rintro ⟨v, hv, hpr⟩
        rcases List.mem_cons.mp hv with heq | htl
        · rw [heq] at hpr
          exact absurd hpr hp
        · exact ⟨v, htl, hpr⟩

theorem lookupItem_filter_keys (m : Items) (k : String) (d : List String)
    (h : memStr k d = false) :
    lookupItem (m.filter (fun p => !(memStr p.1 d))) k = lookupItem m k := by
  induction m with
  | nil => rfl
  | cons hd tl ih =>
    obtain ⟨k₁, v₁⟩ := hd
    by_cases hk : k₁ = k
    · subst hk
      rw [List.filter_cons_of_pos (by simp [h])]
      simp [lookupItem]
    · by_cases hmem : memStr k₁ d = true
      · rw [List.filter_cons_of_neg (by simp [hmem])]
        simp only [lookupItem, if_neg hk]
        exact ih
      · rw [List.filter_cons_of_pos (by simp [Bool.eq_false_iff.mpr hmem])]
        simp only [lookupItem, if_neg hk]
        exact ih

theorem countStr_filter_le (k : String) (p : String → Bool) (l : List String) :
    countStr k (l.filter p) ≤ countStr k l := by
  induction l with
  | nil => simp [countStr]
  | cons x rest ih =>
    by_cases hp : p x = true
    · rw [List.filter_cons_of_pos hp]
      simp only [countStr]
      omega
    · rw [List.filter_cons_of_neg (by simp [hp])]
      simp only [countStr]
      omega

theorem land_or_mask_ne_zero {n : Nat} (h : 4 &&& n ≠ 0) : 12 &&& n ≠ 0 := by
  have ht : n.testBit 2 = true := by
    have h2 := Nat.two_pow_and n 2
    norm_num at h2
    cases hb : n.testBit 2 with
    | false => rw [hb] at h2; simp at h2; exact absurd h2 h
    | true => rfl
  intro hz
  have h2 := Nat.zero_testBit 2
  rw [← hz, Nat.testBit_land, ht] at h2
  have h12 : Nat.testBit 12 2 = true := by decide
  rw [h12] at h2
  simp at h2

/-- Fact that `e.Is DELETE_EVENT` implies `e.Is (DELETE_EVENT ||| POP_EVENT)`. -/
theorem is_delete_imp_is_or (e : EntryRec) (h : e.Is DELETE_EVENT = true) :
    e.Is (DELETE_EVENT ||| POP_EVENT) = true := by
  unfold EntryRec.Is DELETE_EVENT POP_EVENT at *
  simp only [bne_iff_ne, ne_eq, decide_eq_true_eq] at h ⊢
  exact land_or_mask_ne_zero h

/-! ### Behaviour of `mergeStep` and `gcRun` -/

theorem mergeStep_no_gc (now : Nat) (f : FIFO) (id : String) (obj : Obj)
    (h : (f.gcc + 1) % 256 ≠ 0) :
    mergeStep now f id obj =
      ({ f with items := (mergeCore now f.lingerTTL f.items id obj).1, gcc := f.gcc + 1 },
       (mergeCore now f.lingerTTL f.items id obj).2) := by
  unfold mergeStep
  rw [if_neg h]

theorem mergeStep_gc (now : Nat) (f : FIFO) (id : String) (obj : Obj)
    (h : (f.gcc + 1) % 256 = 0) :
    mergeStep now f id obj =
      (gcRun now { f with items := (mergeCore now f.lingerTTL f.items id obj).1, gcc := 0 },
       (mergeCore now f.lingerTTL f.items id obj).2) := by
  unfold mergeStep
  rw [if_pos h]

theorem mergeStep_queue_count_le (now : Nat) (f : FIFO) (id : String) (obj : Obj)
    (k : String) :
    countStr k (mergeStep now f id obj).1.queue ≤ countStr k f.queue := by
  by_cases h : (f.gcc + 1) % 256 = 0
  · rw [mergeStep_gc now f id obj h]
    exact countStr_filter_le _ _ _
  · rw [mergeStep_no_gc now f id obj h]

theorem lookup_mergeCore_ne (now ttl : Nat) (m : Items) (id : String) (obj : Obj)
    (k : String) (h : k ≠ id) :
    lookupItem (mergeCore now ttl m id obj).1 k = lookupItem m k := by
  unfold mergeCore
  cases hl : lookupItem m id with
  | none => exact lookupItem_setItem_ne m id _ k h
  | some item =>
    dsimp only
    by_cases h1 : (!(item.Is DELETE_EVENT) && item.value.uid != obj.uid) = true
    · rw [if_pos h1]
      exact lookupItem_setItem_ne m id _ k h
    · rw [if_neg h1]
      by_cases h2 : (obj != item.value) = true
      · rw [if_pos h2]
        exact lookupItem_setItem_ne m id _ k h
      · rw [if_neg h2]

theorem lookup_gcRun_not_expired (now : Nat) (f : FIFO) (k : String) (e : EntryRec)
    (h : lookupItem f.items k = some e)
    (hall : ∀ v, (k, v) ∈ f.items → expiredAt now v = false) :
    lookupItem (gcRun now f).items k = some e := by
  unfold gcRun
  have hmem : memStr k ((f.items.filter (fun p => expiredAt now p.2)).map Prod.fst) = false := by
    rw [Bool.eq_false_iff]
    intro hmm
    obtain ⟨v, hv, he⟩ := (memStr_keys_filter _ _ _).mp hmm
    rw [hall v hv] at he
    exact absurd he (by simp)
  rw [lookupItem_filter_keys _ _ _ hmem]
  exact h

theorem all_setItem_not_expired (now : Nat) (m : Items) (k : String) (e : EntryRec)
    (hs : (lookupItem m k).isSome = true) (he : expiredAt now e = false) :
    ∀ v, (k, v) ∈ setItem m k e → expiredAt now v = false := by
  intro v hv
  rw [mem_setItem_eq hs hv]
  exact he

theorem expiredAt_of_not_delete (now : Nat) (e : EntryRec)
    (h : e.Is DELETE_EVENT = false) : expiredAt now e = false := by
  unfold expiredAt
  rw [h]
  rfl

/-- Shared core of C2: `merge` on a state whose entry for `id` is live
with a different unique identifier performs the hidden delete. -/
theorem mergeStep_hidden (now : Nat) (g : FIFO) (id : String) (obj : Obj) (e : EntryRec)
    (h : lookupItem g.items id = some e)
    (hd : e.Is DELETE_EVENT = false)
    (hu : e.value.uid ≠ obj.uid) :
    (mergeStep now g id obj).2 =
      [⟨e.value, DELETE_EVENT, some (now + g.lingerTTL)⟩, ⟨obj, ADD_EVENT, none⟩]
    ∧ lookupItem (mergeStep now g id obj).1.items id = some ⟨obj, ADD_EVENT, none⟩ := by
  have hcore : mergeCore now g.lingerTTL g.items id obj =
      (setItem g.items id ⟨obj, ADD_EVENT, none⟩,
       [⟨e.value, DELETE_EVENT, some (now + g.lingerTTL)⟩, ⟨obj, ADD_EVENT, none⟩]) := by
    unfold mergeCore
    rw [h]
    dsimp only
    have hcond : (!(e.Is DELETE_EVENT) && e.value.uid != obj.uid) = true := by
      rw [hd]
      simp [bne_iff_ne, hu]
    rw [if_pos hcond]
  have he2 : expiredAt now (⟨obj, ADD_EVENT, none⟩ : EntryRec) = false := by
    apply expiredAt_of_not_delete
    simp [EntryRec.Is, ADD_EVENT, DELETE_EVENT]
  have hsome : (lookupItem g.items id).isSome = true := by rw [h]; rfl
  by_cases hgc : (g.gcc + 1) % 256 = 0
  · rw [mergeStep_gc now g id obj hgc, hcore]
    refine ⟨rfl, ?_⟩
    exact lookup_gcRun_not_expired now
      { g with items := setItem g.items id ⟨obj, ADD_EVENT, none⟩, gcc := 0 } id
      ⟨obj, ADD_EVENT, none⟩ (lookupItem_setItem_self _ _ _)
      (all_setItem_not_expired now g.items id _ hsome he2)
  · rw [mergeStep_no_gc now g id obj hgc, hcore]
    exact ⟨rfl, lookupItem_setItem_self _ _ _⟩

theorem mergeStep_notifications (now : Nat) (f : FIFO) (id : String) (obj : Obj) :
    (mergeStep now f id obj).2 = (mergeCore now f.lingerTTL f.items id obj).2 := by
  by_cases h : (f.gcc + 1) % 256 = 0
  · rw [mergeStep_gc now f id obj h]
  · rw [mergeStep_no_gc now f id obj h]

theorem addOp_notifications (now : Nat) (f : FIFO) (id : String) (obj : Obj) :
    (AddOp now f id obj).2 = (mergeCore now f.lingerTTL f.items id obj).2 := by
  unfold AddOp
  cases hl : lookupItem f.items id with
  | none =>
    dsimp only
    exact mergeStep_notifications now { f with queue := f.queue ++ [id] } id obj
  | some e =>
    dsimp only
    by_cases hp : e.Is (DELETE_EVENT ||| POP_EVENT) = true
    · rw [if_pos hp]
      exact mergeStep_notifications now { f with queue := f.queue ++ [id] } id obj
    · rw [if_neg hp]
      exact mergeStep_notifications now f id obj

/-! ### Claim theorems -/

/-- C1 counterexample: after `Add K u1; Delete K; Add K u1'` the pending
queue contains `K` twice while `K`'s entry is live (UPDATE-tagged,
neither DELETE nor POP), so the at-most-one-pending-slot invariant fails
as stated. -/
theorem at_most_once_pending_fails :
    countStr "K" cxState.queue = 2
    ∧ lookupItem cxState.items "K" = some ⟨objU2, UPDATE_EVENT, none⟩
    ∧ EntryRec.Is ⟨objU2, UPDATE_EVENT, none⟩ (DELETE_EVENT ||| POP_EVENT) = false := by
  decide

/-- C1 (amended): `Add`/`Update`/`Readd` never re-enqueue a key whose
entry is live (not tagged DELETE or POP): no key's occurrence count in
the pending queue increases. -/
theorem live_key_never_reenqueued (now : Nat) (f : FIFO) (id : String) (obj : Obj)
    (t : Nat) (e : EntryRec)
    (h : lookupItem f.items id = some e)
    (hlive : e.Is (DELETE_EVENT ||| POP_EVENT) = false) :
    (∀ k, countStr k (AddOp now f id obj).1.queue ≤ countStr k f.queue)
    ∧ (∀ k, countStr k (UpdateOp now f id obj).1.queue ≤ countStr k f.queue)
    ∧ (∀ k, countStr k (ReaddOp now f id obj t).1.queue ≤ countStr k f.queue) := by
  have hadd : ∀ k, countStr k (AddOp now f id obj).1.queue ≤ countStr k f.queue := by
    intro k
    unfold AddOp
    rw [h]
    dsimp only
    rw [if_neg (by rw [hlive]; exact Bool.false_ne_true)]
    exact mergeStep_queue_count_le now f id obj k
  refine ⟨hadd, hadd, ?_⟩
  intro k
  unfold ReaddOp
  rw [h]
  dsimp only
  by_cases hm : e.Is t = true
  · have h1 : (!(e.Is t)) = false := by rw [hm]; rfl
    rw [if_neg (by rw [h1]; exact Bool.false_ne_true)]
    rw [if_neg (by rw [hlive]; exact Bool.false_ne_true)]
    exact mergeStep_queue_count_le now f id obj k
  · have hm' : e.Is t = false := Bool.eq_false_iff.mpr hm
    have h1 : (!(e.Is t)) = true := by rw [hm']; rfl
    rw [if_pos h1]

/-- C1 witness: on a live pending entry for `K`, `Add` does not grow
`K`'s count in the queue. -/
theorem live_key_never_reenqueued_witness :
    countStr "K" (AddOp 0 wLive "K" objU2).1.queue ≤ countStr "K" wLive.queue :=
  (live_key_never_reenqueued 0 wLive "K" objU2 POP_EVENT ⟨objU1, ADD_EVENT, none⟩
    (by decide) (by decide)).1 "K"

/-- C2 (confirmed): `Add(K, v2)` on a live entry whose stored identifier
differs tombstones the old value (DELETE tag, expiration `now +
lingerTTL`), stores a brand-new ADD-tagged entry for `v2`, and notifies
exactly `[tombstone, new Add]` in that order. -/
theorem hidden_delete_ordering (now : Nat) (f : FIFO) (id : String) (obj : Obj)
    (e : EntryRec)
    (h : lookupItem f.items id = some e)
    (hd : e.Is DELETE_EVENT = false)
    (hu : e.value.uid ≠ obj.uid) :
    (AddOp now f id obj).2 =
      [⟨e.value, DELETE_EVENT, some (now + f.lingerTTL)⟩, ⟨obj, ADD_EVENT, none⟩]
    ∧ lookupItem (AddOp now f id obj).1.items id = some ⟨obj, ADD_EVENT, none⟩ := by
  unfold AddOp
  rw [h]
  dsimp only
  by_cases hp : e.Is (DELETE_EVENT ||| POP_EVENT) = true
  · rw [if_pos hp]
    exact mergeStep_hidden now { f with queue := f.queue ++ [id] } id obj e h hd hu
  · rw [if_neg hp]
    exact mergeStep_hidden now f id obj e h hd hu

/-- C2 witness: adding `u2/2` over the live entry `u1/1` notifies the
tombstone then the new Add. -/
theorem hidden_delete_ordering_witness :
    (AddOp 5 wLive "K" objW2).2 =
      [⟨objU1, DELETE_EVENT, some 305⟩, ⟨objW2, ADD_EVENT, none⟩] :=
  (hidden_delete_ordering 5 wLive "K" objW2 ⟨objU1, ADD_EVENT, none⟩
    (by decide) (by decide) (by decide)).1

/-- C9 (confirmed): merging onto a DELETE-tagged entry never takes the
hidden-delete path: a value different from the tombstoned one yields a
single UPDATE-tagged entry and one Update notification (also when the
identifiers differ); the identical value leaves the map unchanged and
notifies nothing. -/
theorem tombstone_revive (now ttl : Nat) (m : Items) (K : String) (obj : Obj)
    (e : EntryRec)
    (h : lookupItem m K = some e)
    (hd : e.Is DELETE_EVENT = true) :
    (obj ≠ e.value →
      (mergeCore now ttl m K obj).2 = [⟨obj, UPDATE_EVENT, none⟩]
      ∧ lookupItem (mergeCore now ttl m K obj).1 K = some ⟨obj, UPDATE_EVENT, none⟩)
    ∧ (obj = e.value → mergeCore now ttl m K obj = (m, []))
    ∧ (∀ f : FIFO, f.items = m → f.lingerTTL = ttl →
        (AddOp now f K obj).2 = (mergeCore now ttl m K obj).2) := by
  have hcond : (!(e.Is DELETE_EVENT) && e.value.uid != obj.uid) = false := by
    rw [hd]
    rfl
  refine ⟨?_, ?_, ?_⟩
  · intro hne
    unfold mergeCore
    rw [h]
    dsimp only
    rw [if_neg (by rw [hcond]; exact Bool.false_ne_true)]
    have h2 : (obj != e.value) = true := by simp [bne_iff_ne, hne]
    rw [if_pos h2]
    exact ⟨rfl, lookupItem_setItem_self _ _ _⟩
  · intro heq
    unfold mergeCore
    rw [h]
    dsimp only
    rw [if_neg (by rw [hcond]; exact Bool.false_ne_true)]
    have h2 : (obj != e.value) = false := by rw [heq]; simp
    rw [if_neg (by rw [h2]; exact Bool.false_ne_true)]
  · intro g hgi hgt
    rw [← hgi, ← hgt]
    exact addOp_notifications now g K obj

/-- C9 witness: adding a different value with a different identifier
over the tombstone for `K` emits a single Update notification. -/
theorem tombstone_revive_witness :
    (mergeCore 0 300 wTomb.items "K" objW2).2 = [⟨objW2, UPDATE_EVENT, none⟩] :=
  ((tombstone_revive 0 300 wTomb.items "K" objW2 ⟨objU1, DELETE_EVENT, some 500⟩
    (by decide) (by decide)).1 (by decide)).1

/-- C3 (confirmed): on a queue holding only key `K` with a live entry,
`Pop` returns `K`'s value once, leaves a POP-tagged entry and an empty
queue, and the next `Pop` blocks (`none`); a dequeued head whose entry
is missing or tagged DELETE/POP is discarded and the loop retried. -/
theorem pop_exactly_once (f : FIFO) (K : String) (e : EntryRec)
    (hq : f.queue = [K])
    (h : lookupItem f.items K = some e)
    (hlive : e.Is (DELETE_EVENT ||| POP_EVENT) = false) :
    PopOp f = some ({ f with items := setItem f.items K ⟨e.value, POP_EVENT, none⟩, queue := [] }, ⟨e.value, POP_EVENT, none⟩, e.value)
    ∧ lookupItem (setItem f.items K ⟨e.value, POP_EVENT, none⟩) K
        = some ⟨e.value, POP_EVENT, none⟩
    ∧ PopOp { f with items := setItem f.items K ⟨e.value, POP_EVENT, none⟩, queue := [] } = none
    ∧ (∀ g : FIFO, ∀ id : String, ∀ rest : List String, g.queue = id :: rest →
        (lookupItem g.items id = none ∨
          ∃ e', lookupItem g.items id = some e' ∧
            e'.Is (DELETE_EVENT ||| POP_EVENT) = true) →
        PopOp g = PopOp { g with queue := rest }) := by
  refine ⟨?_, lookupItem_setItem_self _ _ _, ?_, ?_⟩
  · unfold PopOp
    rw [hq]
    unfold popLoop
    rw [h]
    dsimp only
    rw [if_neg (by rw [hlive]; exact Bool.false_ne_true)]
  · rfl
  · intro g id rest hgq hstale
    have hpl : popLoop g.items (id :: rest) = popLoop g.items rest := by
      conv_lhs => unfold popLoop
      rcases hstale with hnone | ⟨e', he', hIs⟩
      · rw [hnone]
      · rw [he']
        dsimp only
        rw [if_pos hIs]
    unfold PopOp
    rw [hgq, hpl]

/-- C3 witness: popping the one-element queue returns `u1/1`, and the
next `Pop` on the resulting state blocks. -/
theorem pop_exactly_once_witness :
    PopOp wLive = some ({ wLive with items := setItem wLive.items "K" ⟨objU1, POP_EVENT, none⟩, queue := [] }, ⟨objU1, POP_EVENT, none⟩, objU1)
    ∧ PopOp { wLive with items := setItem wLive.items "K" ⟨objU1, POP_EVENT, none⟩, queue := [] } = none :=
  ⟨(pop_exactly_once wLive "K" ⟨objU1, ADD_EVENT, none⟩
      (by decide) (by decide) (by decide)).1,
   (pop_exactly_once wLive "K" ⟨objU1, ADD_EVENT, none⟩
      (by decide) (by decide) (by decide)).2.2.1⟩

/-- C5 counterexample: with `K`'s entry DELETE-tagged, `Readd(K, v,
ADD_EVENT)` is a silent no-op — the mask `ADD` does not match the tag
`DELETE` (`ADD & DELETE = 0`), so nothing is re-added, contradicting
"succeeds if tagged Delete". -/
theorem readd_guard_fails :
    lookupItem wTomb.items "K" = some ⟨objU1, DELETE_EVENT, some 500⟩
    ∧ EntryRec.Is ⟨objU1, DELETE_EVENT, some 500⟩ DELETE_EVENT = true
    ∧ objU2 ≠ objU1
    ∧ ReaddOp 0 wTomb "K" objU2 ADD_EVENT = (wTomb, []) := by
  decide

/-- C5 (amended): `Readd(K, v, mask)` is a silent no-op whenever `K`'s
entry does not match `mask`; in particular a DELETE-tagged entry makes
`Readd(_, _, ADD_EVENT)` (and `Readd` with any non-matching mask) a
no-op, while `Readd(_, _, DELETE_EVENT)` on it re-enqueues the key and
merges, like `Add`. -/
theorem readd_mask_guard (now : Nat) (f : FIFO) (id : String) (obj : Obj)
    (t : Nat) (e : EntryRec)
    (h : lookupItem f.items id = some e) :
    (e.Is t = false → ReaddOp now f id obj t = (f, []))
    ∧ (e.Is DELETE_EVENT = true →
        ReaddOp now f id obj DELETE_EVENT =
          mergeStep now { f with queue := f.queue ++ [id] } id obj) := by
  constructor
  · intro hm
    unfold ReaddOp
    rw [h]
    dsimp only
    have h1 : (!(e.Is t)) = true := by rw [hm]; rfl
    rw [if_pos h1]
  · intro hdel
    unfold ReaddOp
    rw [h]
    dsimp only
    have h1 : (!(e.Is DELETE_EVENT)) = false := by rw [hdel]; rfl
    rw [if_neg (by rw [h1]; exact Bool.false_ne_true)]
    rw [if_pos (is_delete_imp_is_or e hdel)]

/-- C5 witness: `Readd` with the non-matching `ADD` mask on the
DELETE-tagged entry is a no-op. -/
theorem readd_mask_guard_witness :
    ReaddOp 3 wTomb "K" objU2 ADD_EVENT = (wTomb, []) :=
  (readd_mask_guard 3 wTomb "K" objU2 ADD_EVENT ⟨objU1, DELETE_EVENT, some 500⟩
    (by decide)).1 (by decide)

/-- C8 (confirmed): `Delete` never touches the queue (nor `gcc` or
`lingerTTL`); it is a no-op without notification when the key is absent
or already DELETE-tagged; otherwise its only change is replacing `K`'s
entry by the DELETE-tagged tombstone expiring at `now + lingerTTL`,
which is also the notification. -/
theorem delete_frame (now : Nat) (f : FIFO) (K : String) :
    (DeleteOp now f K).1.queue = f.queue
    ∧ (DeleteOp now f K).1.gcc = f.gcc
    ∧ (DeleteOp now f K).1.lingerTTL = f.lingerTTL
    ∧ (lookupItem f.items K = none → DeleteOp now f K = (f, none))
    ∧ (∀ e, lookupItem f.items K = some e → e.Is DELETE_EVENT = true →
        DeleteOp now f K = (f, none))
    ∧ (∀ e, lookupItem f.items K = some e → e.Is DELETE_EVENT = false →
        DeleteOp now f K =
          ({ f with items := setItem f.items K ⟨e.value, DELETE_EVENT, some (now + f.lingerTTL)⟩ },
           some ⟨e.value, DELETE_EVENT, some (now + f.lingerTTL)⟩)) := by
  unfold DeleteOp
  cases hl : lookupItem f.items K with
  | none =>
    dsimp only
    exact ⟨rfl, rfl, rfl, fun _ => rfl,
      fun e he => absurd he (by simp),
      fun e he => absurd he (by simp)⟩
  | some item =>
    dsimp only
    by_cases hd : item.Is DELETE_EVENT = true
    · rw [if_neg (by rw [hd]; exact Bool.false_ne_true)]
      refine ⟨rfl, rfl, rfl, fun hc => absurd hc (by simp), fun e he _ => rfl, ?_⟩
      intro e he hde
      injection he with hei
      rw [← hei] at hde
      rw [hd] at hde
      exact absurd hde (by simp)
    · have hd' : item.Is DELETE_EVENT = false := Bool.eq_false_iff.mpr hd
      rw [if_pos (by rw [hd']; rfl)]
      refine ⟨rfl, rfl, rfl, fun hc => absurd hc (by simp), ?_, ?_⟩
      · intro e he hde
        injection he with hei
        rw [← hei, hd'] at hde
        exact absurd hde (by simp)
      · intro e he _
        injection he with hei
        rw [hei]

/-- C8 witness: deleting the live entry for `K` keeps the queue and
stores the tombstone. -/
theorem delete_frame_witness :
    (DeleteOp 2 wLive "K").1.queue = wLive.queue
    ∧ DeleteOp 2 wLive "K" =
        ({ wLive with items := setItem wLive.items "K" ⟨objU1, DELETE_EVENT, some (2 + wLive.lingerTTL)⟩ },
         some ⟨objU1, DELETE_EVENT, some (2 + wLive.lingerTTL)⟩) :=
  ⟨(delete_frame 2 wLive "K").1,
   (delete_frame 2 wLive "K").2.2.2.2.2 ⟨objU1, ADD_EVENT, none⟩ (by decide) (by decide)⟩

/-- C10 (confirmed): `gc` removes only DELETE-tagged entries — an entry
not tagged DELETE (in particular a POP-tagged one) survives every gc
sweep; a POP-tagged entry is invisible to `Get` and `ContainedIDs`. -/
theorem gc_spares_popped (now : Nat) (f : FIFO) (K : String) (e : EntryRec)
    (hnd : (f.items.map Prod.fst).Nodup)
    (h : lookupItem f.items K = some e)
    (hp : e.Is DELETE_EVENT = false) :
    lookupItem (gcRun now f).items K = some e
    ∧ (e.event = POP_EVENT →
        GetOp f K = none ∧ memStr K (ContainedIDsOp f) = false) := by
  constructor
  · apply lookup_gcRun_not_expired now f K e h
    intro v hv
    have hlk := lookup_of_mem_nodup hnd hv
    rw [h] at hlk
    injection hlk with hveq
    rw [← hveq]
    exact expiredAt_of_not_delete now e hp
  · intro hev
    have hIs : e.Is (DELETE_EVENT ||| POP_EVENT) = true := by
      unfold EntryRec.Is
      rw [hev]
      decide
    constructor
    · unfold GetOp
      rw [h]
      dsimp only
      rw [if_neg (by rw [hIs]; exact Bool.false_ne_true)]
    · rw [Bool.eq_false_iff]
      intro hmm
      obtain ⟨v, hv, hlv⟩ := (memStr_keys_filter _ _ _).mp hmm
      have hlk := lookup_of_mem_nodup hnd hv
      rw [h] at hlk
      injection hlk with hveq
      rw [← hveq, hIs] at hlv
      exact absurd hlv (by simp)

theorem keys_live_map_replace (K : String) (tomb : EntryRec)
    (htomb : tomb.Is (DELETE_EVENT ||| POP_EVENT) = true) (l : Items) :
    ((l.map (fun p => if p.1 = K then (K, tomb) else p)).filter
        (fun p => !(p.2.Is (DELETE_EVENT ||| POP_EVENT)))).map Prod.fst
    = ((l.filter (fun p => !(p.2.Is (DELETE_EVENT ||| POP_EVENT)))).map Prod.fst).filter
        (fun k => !(decide (k = K))) := by
  induction l with
  | nil => rfl
  | cons hd tl ih =>
    obtain ⟨k₁, v₁⟩ := hd
    rw [List.map_cons]
    by_cases hk : k₁ = K
    · subst hk
      simp only [if_pos]
      rw [List.filter_cons_of_neg (by simp [htomb])]
      rw [ih]
      by_cases hv : v₁.Is (DELETE_EVENT ||| POP_EVENT) = true
      · rw [List.filter_cons_of_neg (by simp [hv])]
      · have hv' : v₁.Is (DELETE_EVENT ||| POP_EVENT) = false := Bool.eq_false_iff.mpr hv
        rw [List.filter_cons_of_pos (by simp [hv'])]
        rw [List.map_cons]
        rw [List.filter_cons_of_neg (by simp)]
    · simp only [if_neg hk]
      by_cases hv : v₁.Is (DELETE_EVENT ||| POP_EVENT) = true
      · rw [List.filter_cons_of_neg (by simp [hv]), List.filter_cons_of_neg (by simp [hv])]
        exact ih
      · have hv' : v₁.Is (DELETE_EVENT ||| POP_EVENT) = false := Bool.eq_false_iff.mpr hv
        rw [List.filter_cons_of_pos (by simp [hv']),
            List.filter_cons_of_pos (by simp [hv']),
            List.map_cons, List.map_cons,
            List.filter_cons_of_pos (by simp [hk])]
        rw [ih]

theorem values_live_map_replace (K : String) (tomb : EntryRec)
    (htomb : tomb.Is (DELETE_EVENT ||| POP_EVENT) = true) (l : Items) :
    ((l.map (fun p => if p.1 = K then (K, tomb) else p)).filter
        (fun p => !(p.2.Is (DELETE_EVENT ||| POP_EVENT)))).map (fun p => p.2.value)
    = (l.filter (fun p => !(decide (p.1 = K)) &&
        !(p.2.Is (DELETE_EVENT ||| POP_EVENT)))).map (fun p => p.2.value) := by
  induction l with
  | nil => rfl
  | cons hd tl ih =>
    obtain ⟨k₁, v₁⟩ := hd
    rw [List.map_cons]
    by_cases hk : k₁ = K
    · subst hk
      simp only [if_pos]
      rw [List.filter_cons_of_neg (by simp [htomb])]
      rw [List.filter_cons_of_neg (by simp)]
      exact ih
    · simp only [if_neg hk]
      by_cases hv : v₁.Is (DELETE_EVENT ||| POP_EVENT) = true
      · rw [List.filter_cons_of_neg (by simp [hv]),
            List.filter_cons_of_neg (by simp [hv])]
        exact ih
      · have hv' : v₁.Is (DELETE_EVENT ||| POP_EVENT) = false := Bool.eq_false_iff.mpr hv
        rw [List.filter_cons_of_pos (by simp [hv']),
            List.filter_cons_of_pos (by simp [hk, hv']),
            List.map_cons, List.map_cons, ih]

/-- C6 (confirmed): after `Delete(K)` on a live entry, `Get(K)` is
not-found, `ContainedIDs` is the old key set without `K`, and `List` is
the old live values without `K`'s — the reads exclude every DELETE- or
POP-tagged entry. -/
theorem tombstone_visibility (now : Nat) (f : FIFO) (K : String) (e : EntryRec)
    (h : lookupItem f.items K = some e)
    (hl : e.Is DELETE_EVENT = false) :
    GetOp (DeleteOp now f K).1 K = none
    ∧ ContainedIDsOp (DeleteOp now f K).1
        = (ContainedIDsOp f).filter (fun k => !(decide (k = K)))
    ∧ ListOp (DeleteOp now f K).1
        = (f.items.filter (fun p => !(decide (p.1 = K)) &&
            !(p.2.Is (DELETE_EVENT ||| POP_EVENT)))).map (fun p => p.2.value) := by
  have hDel : (DeleteOp now f K).1 =
      { f with items := setItem f.items K ⟨e.value, DELETE_EVENT, some (now + f.lingerTTL)⟩ } := by
    unfold DeleteOp
    rw [h]
    dsimp only
    rw [if_pos (by rw [hl]; rfl)]
  have htomb : (⟨e.value, DELETE_EVENT, some (now + f.lingerTTL)⟩ : EntryRec).Is
      (DELETE_EVENT ||| POP_EVENT) = true := by
    unfold EntryRec.Is
    dsimp only
    decide
  have hset : setItem f.items K ⟨e.value, DELETE_EVENT, some (now + f.lingerTTL)⟩ =
      f.items.map (fun p =>
        if p.1 = K then (K, ⟨e.value, DELETE_EVENT, some (now + f.lingerTTL)⟩) else p) := by
    unfold setItem
    rw [if_pos (by rw [h]; rfl)]
  refine ⟨?_, ?_, ?_⟩
  · rw [hDel]
    unfold GetOp
    dsimp only
    rw [lookupItem_setItem_self]
    dsimp only
    rw [if_neg (by rw [htomb]; simp)]
  · rw [hDel]
    unfold ContainedIDsOp
    dsimp only
    rw [hset]
    exact keys_live_map_replace K _ htomb f.items
  · rw [hDel]
    unfold ListOp
    dsimp only
    rw [hset]
    exact values_live_map_replace K _ htomb f.items

/-- C6 witness: after deleting `K`, `Get` misses and `ContainedIDs`
drops `K`. -/
theorem tombstone_visibility_witness :
    GetOp (DeleteOp 2 wLive "K").1 "K" = none
    ∧ ContainedIDsOp (DeleteOp 2 wLive "K").1
        = (ContainedIDsOp wLive).filter (fun k => !(decide (k = "K"))) :=
  ⟨(tombstone_visibility 2 wLive "K" ⟨objU1, ADD_EVENT, none⟩ (by decide) (by decide)).1,
   (tombstone_visibility 2 wLive "K" ⟨objU1, ADD_EVENT, none⟩ (by decide) (by decide)).2.1⟩

theorem mem_deleted_eq_expired (now : Nat) (m : Items)
    (hnd : (m.map Prod.fst).Nodup) :
    ∀ k v, (k, v) ∈ m →
      memStr k ((m.filter (fun p => expiredAt now p.2)).map Prod.fst) = expiredAt now v := by
  intro k v hv
  by_cases he : expiredAt now v = true
  · rw [he]
    exact (memStr_keys_filter m k _).mpr ⟨v, hv, he⟩
  · have he' : expiredAt now v = false := Bool.eq_false_iff.mpr he
    rw [he']
    rw [Bool.eq_false_iff]
    intro hmm
    obtain ⟨v', hv', hev'⟩ := (memStr_keys_filter _ _ _).mp hmm
    have h1 := lookup_of_mem_nodup hnd hv
    have h2 := lookup_of_mem_nodup hnd hv'
    rw [h1] at h2
    injection h2 with hveq
    rw [← hveq] at hev'
    exact absurd hev' he

theorem mem_deleted_eq_lookup_expired (now : Nat) (m : Items)
    (hnd : (m.map Prod.fst).Nodup) (k : String) :
    memStr k ((m.filter (fun p => expiredAt now p.2)).map Prod.fst)
      = (match lookupItem m k with
         | some e => expiredAt now e
         | none => false) := by
  cases hl : lookupItem m k with
  | none =>
    rw [Bool.eq_false_iff]
    intro hmm
    obtain ⟨v, hv, _⟩ := (memStr_keys_filter _ _ _).mp hmm
    have h1 := lookup_of_mem_nodup hnd hv
    rw [hl] at h1
    exact Option.noConfusion h1
  | some e =>
    exact mem_deleted_eq_expired now m hnd k e (lookupItem_mem hl)

/-- C7 (confirmed): `merge` increments the counter and leaves items and
queue un-swept except on every 256th merge, when the counter resets and
`gc` runs; `gc` removes exactly the expired DELETE-tagged entries and
rebuilds the queue by filtering out exactly the reclaimed keys,
preserving the order of survivors. -/
theorem gc_every_256 (now : Nat) (f : FIFO) (id : String) (obj : Obj)
    (hnd : (f.items.map Prod.fst).Nodup) :
    ((f.gcc + 1) % 256 ≠ 0 →
      (mergeStep now f id obj).1.gcc = f.gcc + 1
      ∧ (mergeStep now f id obj).1.items = (mergeCore now f.lingerTTL f.items id obj).1
      ∧ (mergeStep now f id obj).1.queue = f.queue)
    ∧ ((f.gcc + 1) % 256 = 0 →
      (mergeStep now f id obj).1.gcc = 0
      ∧ (mergeStep now f id obj).1
        = gcRun now { f with items := (mergeCore now f.lingerTTL f.items id obj).1, gcc := 0 })
    ∧ (gcRun now f).items = f.items.filter (fun p => !(expiredAt now p.2))
    ∧ (gcRun now f).queue = f.queue.filter (fun k =>
        !(match lookupItem f.items k with
          | some e => expiredAt now e
          | none => false)) := by
  refine ⟨?_, ?_, ?_, ?_⟩
  · intro hg
    rw [mergeStep_no_gc now f id obj hg]
    exact ⟨rfl, rfl, rfl⟩
  · intro hg
    rw [mergeStep_gc now f id obj hg]
    exact ⟨rfl, rfl⟩
  · unfold gcRun
    dsimp only
    apply List.filter_congr
    intro p hp
    obtain ⟨k, v⟩ := p
    rw [mem_deleted_eq_expired now f.items hnd k v hp]
  · unfold gcRun
    dsimp only
    apply List.filter_congr
    intro k _
    rw [mem_deleted_eq_lookup_expired now f.items hnd k]

/-- C7 witness: at counter 255 the next merge resets the counter, runs
the sweep, and reclaims exactly the expired tombstone `D`. -/
theorem gc_every_256_witness :
    (mergeStep 100 wGC "K" ⟨"uK", 1⟩).1.gcc = 0
    ∧ (mergeStep 100 wGC "K" ⟨"uK", 1⟩).1
        = gcRun 100 { wGC with items := (mergeCore 100 wGC.lingerTTL wGC.items "K" ⟨"uK", 1⟩).1, gcc := 0 }
    ∧ (gcRun 100 wGC).items = wGC.items.filter (fun p => !(expiredAt 100 p.2)) :=
  ⟨((gc_every_256 100 wGC "K" ⟨"uK", 1⟩ (by decide)).2.1 (by decide)).1,
   ((gc_every_256 100 wGC "K" ⟨"uK", 1⟩ (by decide)).2.1 (by decide)).2,
   (gc_every_256 100 wGC "K" ⟨"uK", 1⟩ (by decide)).2.2.1⟩

theorem tombstonePass_lookup (now ttl : Nat) (newKeys : List String) (m : Items)
    (k : String) (v : EntryRec)
    (h : lookupItem m k = some v)
    (hk : memStr k newKeys = false)
    (hd : v.Is DELETE_EVENT = false) :
    lookupItem (tombstonePass now ttl newKeys m).1 k
      = some ⟨v.value, DELETE_EVENT, some (now + ttl)⟩
    ∧ (⟨v.value, DELETE_EVENT, some (now + ttl)⟩ : EntryRec)
        ∈ (tombstonePass now ttl newKeys m).2 := by
  induction m with
  | nil => simp [lookupItem] at h
  | cons hd₁ tl ih =>
    obtain ⟨k₁, v₁⟩ := hd₁
    unfold tombstonePass
    by_cases hk₁ : k₁ = k
    · subst hk₁
      have hv₁ : v₁ = v := by
        rw [lookupItem] at h
        rw [if_pos rfl] at h
        exact Option.some.injEq .. ▸ h
      subst hv₁
      rw [if_pos (by rw [hk, hd]; rfl)]
      dsimp only
      exact ⟨by rw [lookupItem, if_pos rfl], List.mem_cons_self _ _⟩
    · have h' : lookupItem tl k = some v := by
        rw [lookupItem, if_neg hk₁] at h
        exact h
      obtain ⟨ih1, ih2⟩ := ih h'
      by_cases hcond : (!(memStr k₁ newKeys) && !(v₁.Is DELETE_EVENT)) = true
      · rw [if_pos hcond]
        dsimp only
        exact ⟨by rw [lookupItem, if_neg hk₁]; exact ih1, List.mem_cons_of_mem _ ih2⟩
      · rw [if_neg hcond]
        dsimp only
        exact ⟨by rw [lookupItem, if_neg hk₁]; exact ih1, ih2⟩

theorem replacePass_props (now : Nat) :
    ∀ (ns : List (String × Obj)) (f : FIFO),
      f.gcc + ns.length < 256 →
      (replacePass now f ns).1.queue = f.queue ++ ns.map Prod.fst
      ∧ (replacePass now f ns).1.gcc = f.gcc + ns.length
      ∧ (replacePass now f ns).1.lingerTTL = f.lingerTTL
      ∧ (∀ k, memStr k (ns.map Prod.fst) = false →
          lookupItem (replacePass now f ns).1.items k = lookupItem f.items k) := by
  intro ns
  induction ns with
  | nil =>
    intro f hgc
    exact ⟨by simp [replacePass], rfl, rfl, fun k _ => rfl⟩
  | cons hd rest ih =>
    obtain ⟨id, obj⟩ := hd
    intro f hgc
    rw [List.length_cons] at hgc
    have hstep : (f.gcc + 1) % 256 ≠ 0 := by
      have hlt : f.gcc + 1 < 256 := by omega
      rw [Nat.mod_eq_of_lt hlt]
      omega
    unfold replacePass
    rw [mergeStep_no_gc now { f with queue := f.queue ++ [id] } id obj hstep]
    dsimp only
    obtain ⟨ihq, ihg, iht, ihl⟩ := ih
      { f with items := (mergeCore now f.lingerTTL f.items id obj).1,
               queue := f.queue ++ [id], gcc := f.gcc + 1 }
      (by show f.gcc + 1 + rest.length < 256; omega)
    refine ⟨?_, ?_, ?_, ?_⟩
    · rw [ihq]
      simp
    · rw [ihg]
      show f.gcc + 1 + rest.length = f.gcc + ((id, obj) :: rest).length
      rw [List.length_cons]
      omega
    · rw [iht]
    · intro k hk
      rw [List.map_cons] at hk
      rw [memStr] at hk
      by_cases hid : id = k
      · rw [if_pos hid] at hk
        exact absurd hk (by simp)
      · rw [if_neg hid] at hk
        rw [ihl k hk]
        dsimp only
        exact lookup_mergeCore_ne now f.lingerTTL f.items id obj k (fun he => hid he.symm)

/-- C4 (confirmed): `Replace` clears the queue and enqueues exactly the
keys of the new state; every existing live key absent from the new state
is tombstoned with a fresh expiration and a Delete notification; on the
concrete `{A:1, B:2}` / `Replace {B:3, C:4}` scenario, `List` afterwards
holds exactly `{uB/3, uC/4}` and the notifications include the Delete of
`uA/1`, the Update to `uB/3` and the Add of `uC/4`. -/
theorem replace_semantics (now : Nat) (f : FIFO) (newState : List (String × Obj))
    (hgc : f.gcc + newState.length < 256) :
    (ReplaceOp now f newState).1.queue = newState.map Prod.fst
    ∧ (∀ id v, lookupItem f.items id = some v →
        memStr id (newState.map Prod.fst) = false →
        v.Is DELETE_EVENT = false →
        lookupItem (ReplaceOp now f newState).1.items id
          = some ⟨v.value, DELETE_EVENT, some (now + f.lingerTTL)⟩
        ∧ (⟨v.value, DELETE_EVENT, some (now + f.lingerTTL)⟩ : EntryRec)
            ∈ (ReplaceOp now f newState).2)
    ∧ (ReplaceOp 7 rState rNew).1.queue = ["B", "C"]
    ∧ ListOp (ReplaceOp 7 rState rNew).1 = [⟨"uB", 3⟩, ⟨"uC", 4⟩]
    ∧ (⟨⟨"uA", 1⟩, DELETE_EVENT, some 307⟩ : EntryRec) ∈ (ReplaceOp 7 rState rNew).2
    ∧ (⟨⟨"uB", 3⟩, UPDATE_EVENT, none⟩ : EntryRec) ∈ (ReplaceOp 7 rState rNew).2
    ∧ (⟨⟨"uC", 4⟩, ADD_EVENT, none⟩ : EntryRec) ∈ (ReplaceOp 7 rState rNew).2 := by
  obtain ⟨hq, hg, ht, hl⟩ := replacePass_props now newState
    { f with items := (tombstonePass now f.lingerTTL (newState.map Prod.fst) f.items).1,
             queue := [] }
    (by show f.gcc + newState.length < 256; omega)
  refine ⟨?_, ?_, by decide, by decide, by decide, by decide, by decide⟩
  · unfold ReplaceOp
    dsimp only
    rw [hq]
    simp
  · intro id v hv hkid hvd
    obtain ⟨ht1, ht2⟩ := tombstonePass_lookup now f.lingerTTL (newState.map Prod.fst)
      f.items id v hv hkid hvd
    constructor
    · unfold ReplaceOp
      dsimp only
      rw [hl id hkid]
      dsimp only
      exact ht1
    · unfold ReplaceOp
      dsimp only
      exact List.mem_append_left _ ht2

/-- C4 witness: with a fresh gc counter, `Replace {B:3, C:4}` on
`{A:1, B:2}` leaves exactly the new keys pending. -/
theorem replace_semantics_witness :
    (ReplaceOp 7 rState rNew).1.queue = rNew.map Prod.fst :=
  (replace_semantics 7 rState rNew (by decide)).1

/-- C10 witness: the POP-tagged entry for `K` survives a gc at a late
time and is invisible to `Get`/`ContainedIDs`. -/
theorem gc_spares_popped_witness :
    lookupItem (gcRun 1000000 wPop).items "K" = some ⟨objU1, POP_EVENT, none⟩
    ∧ GetOp wPop "K" = none
    ∧ memStr "K" (ContainedIDsOp wPop) = false :=
  ⟨(gc_spares_popped 1000000 wPop "K" ⟨objU1, POP_EVENT, none⟩
      (by decide) (by decide) (by decide)).1,
   (gc_spares_popped 1000000 wPop "K" ⟨objU1, POP_EVENT, none⟩
      (by decide) (by decide) (by decide)).2 (by decide)⟩

end HistoricalQueue
